import Mathlib

/-!
Shallow embedding of the `rudiculous/node-logger` package (`src/index.js`):
a leveled logger with a frozen level registry, a per-instance integer
threshold guarded by a coercing setter, a synchronous accept/reject check in
`log`, and a deferred `__write` that formats a prefixed multi-line message and
fans it out to every stream of the routing table whose level set accepts the
message level.  Chalk color wrapping is modelled as the identity (the spec's
byte contract explicitly excludes styling codes), streams are identified by an
id, and the event-loop deferral is modelled as an explicit captured record
(`LogRecord`) consumed later by `flush`.
-/

namespace NodeLogger

/-- Model of a JavaScript number as far as the logger inspects one: a finite
value, `NaN`, or a signed infinity.  A finite value is carried as the exact
decimal `num / 10 ^ exp`, not normalized; value equality is `jeq` below. -/
inductive JNum where
  | fin (num : Int) (exp : Nat)
  | nan
  | inf
  | ninf
deriving DecidableEq

/-- The rational value of a finite decimal. -/
def jvalue (n : Int) (e : Nat) : ℚ :=
  (n : ℚ) / (10 : ℚ) ^ e

/-- SameValueZero on the modelled numbers (the equality JavaScript `Set.has`
uses): value equality of finite decimals, and `NaN` equal to itself. -/
def jeq : JNum → JNum → Bool
  | .fin a ea, .fin b eb => a * (10 : Int) ^ eb == b * (10 : Int) ^ ea
  | .nan, .nan => true
  | .inf, .inf => true
  | .ninf, .ninf => true
  | _, _ => false

/-- Model of the JavaScript values the threshold setter can receive. -/
inductive JsValue where
  | vnum (n : JNum)
  | vstr (s : String)
  | vbool (b : Bool)
  | vnull
  | vundef
deriving DecidableEq

/-- Leading and trailing whitespace removal, as `Number(string)` performs
before parsing. -/
def trimChars (cs : List Char) : List Char :=
  ((cs.dropWhile Char.isWhitespace).reverse.dropWhile Char.isWhitespace).reverse

/-- Whether every character is a decimal digit. -/
def allDigits (cs : List Char) : Bool :=
  cs.all Char.isDigit

/-- Value of a decimal digit string. -/
def digitsVal (cs : List Char) : Nat :=
  cs.foldl (fun n c => n * 10 + (c.toNat - 48)) 0

/-- Splits a character list on every dot. -/
def splitOnDot : List Char → List (List Char)
  | [] => [[]]
  | '.' :: cs => [] :: splitOnDot cs
  | c :: cs =>
      match splitOnDot cs with
      | [] => [[c]]
      | g :: gs => (c :: g) :: gs

/-- Applies a negative sign to an integer when the flag is set. -/
def signed (neg : Bool) (n : Nat) : Int :=
  if neg then -(n : Int) else (n : Int)

/-- Parses the body (sign already removed) of a decimal numeric literal:
digits with at most one dot and at least one digit overall. -/
def parseNumBody (neg : Bool) (body : List Char) : JNum :=
  match splitOnDot body with
  | [ip] =>
      if ip ≠ [] ∧ allDigits ip then .fin (signed neg (digitsVal ip)) 0 else .nan
  | [ip, fp] =>
      if (ip ≠ [] ∨ fp ≠ []) ∧ allDigits ip ∧ allDigits fp then
        .fin (signed neg (digitsVal ip * 10 ^ fp.length + digitsVal fp)) fp.length
      else .nan
  | _ => .nan

/-- Modelled from the spec: the JavaScript `Number(string)` coercion for the
decimal literals this design exercises (an external language builtin).  A
trimmed empty string is `0`; an optional sign followed by digits with an
optional fractional part, or the word Infinity, parses to its value; anything
else is `NaN`.  Exotic literal forms (hex, exponent) are outside the modelled
subset and read as `NaN`. -/
def strToNumber (s : String) : JNum :=
  let cs := trimChars s.toList
  if cs = [] then .fin 0 0
  else
    match cs with
    | '-' :: rest =>
        if rest = ['I', 'n', 'f', 'i', 'n', 'i', 't', 'y'] then .ninf
        else parseNumBody true rest
    | '+' :: rest =>
        if rest = ['I', 'n', 'f', 'i', 'n', 'i', 't', 'y'] then .inf
        else parseNumBody false rest
    | _ =>
        if cs = ['I', 'n', 'f', 'i', 'n', 'i', 't', 'y'] then .inf
        else parseNumBody false cs

/-- The JavaScript `Number(v)` coercion on the modelled value forms. -/
def toNumber : JsValue → JNum
  | .vnum n => n
  | .vstr s => strToNumber s
  | .vbool b => .fin (if b then 1 else 0) 0
  | .vnull => .fin 0 0
  | .vundef => .nan

/-- The JavaScript `Number.isInteger` test: a finite value with no
fractional part. -/
def isIntegerNum : JNum → Bool
  | .fin n e => n % (10 : Int) ^ e == 0
  | _ => false

/-- Reads the integer out of a `JNum` known to be an integer. -/
def jnumToInt : JNum → Int
  | .fin n e => n / (10 : Int) ^ e
  | _ => 0

/-- The JavaScript `>` comparison on numbers: any comparison touching `NaN`
is false. -/
def jsGt : JNum → JNum → Bool
  | .fin a ea, .fin b eb => decide (b * (10 : Int) ^ ea < a * (10 : Int) ^ eb)
  | .fin _ _, .ninf => true
  | .inf, .fin _ _ => true
  | .inf, .ninf => true
  | _, _ => false

/-- The frozen level registry: display name and numeric rank, in registration
order (`chalk.stripColor` of the styled name gives the key). -/
def levels : List (String × Int) :=
  [("SEVERE", 1), ("WARNING", 2), ("INFO", 3), ("FINE", 4), ("FINER", 5), ("FINEST", 6)]

/-- The list of registered ranks, `Object.keys(levels).map(key => levels[key])`. -/
def levelsList : List Int :=
  levels.map Prod.snd

/-- Lookup of a rank by level name, `levels[name]`. -/
def levelRank (n : String) : Int :=
  ((levels.lookup n).getD 0)

/-- Reverse lookup `reverseLevels[messageLevel]`: rank to display name over
the six registered levels (an object keyed by the rank's string form, so two
numbers reach the same key exactly when they are value-equal); an
unregistered rank reads property `undefined`, which the `%s` directive of
the prefix format renders as the text "undefined". -/
def reverseLevelStr (l : JNum) : String :=
  match levels.find? (fun p => jeq (JNum.fin p.2 0) l) with
  | some p => p.1
  | none => "undefined"

/-- JavaScript `Set.prototype.has` over a set of levels, using
SameValueZero. -/
def hasLevel (s : List JNum) (l : JNum) : Bool :=
  s.any (fun x => jeq x l)

/-- Output destinations are identified by an id; the process standard output
is stream `0`. -/
abbrev StreamId := Nat

/-- The id of `process.stdout`. -/
def stdoutId : StreamId := 0

/-- The default routing table: a single entry mapping standard output to the
set of all registered ranks. -/
def defaultStreams : List (StreamId × List JNum) :=
  [(stdoutId, levelsList.map (fun z => JNum.fin z 0))]

/-- The observable state of a `Logger` instance: `name`, the hidden integer
`__level` (the setter keeps it an integer), and the hidden `__streams`
routing table, a map from stream to the set of accepted levels (membership
is `hasLevel`). -/
structure LoggerState where
  name : Option String
  level : Int
  streams : List (StreamId × List JNum)
deriving DecidableEq

/-- The `level` setter (`setLevel` in the source): coerces the argument to a
number and, unless `Number.isInteger` holds of the result, throws before any
assignment, returning the error message next to the untouched instance;
otherwise stores the coerced integer. -/
def setLevel (st : LoggerState) (v : JsValue) : LoggerState × Option String :=
  if isIntegerNum (toNumber v) then
    ({ st with level := jnumToInt (toNumber v) }, none)
  else
    (st, some "Invalid loglevel provided!")

/-- Applies `options.streams` when present (`this.__streams = options.streams`,
a live reference). -/
def applyStreams (st : LoggerState) : Option (List (StreamId × List JNum)) → LoggerState
  | some tbl => { st with streams := tbl }
  | none => st

/-- The constructor `new Logger(name, level, options)`: threshold defaults to
`levels.WARNING` and the routing table to `defaultStreams`; a non-null,
non-undefined `level` argument goes through the `level` setter (a throw there
aborts construction); `options.streams`, when given, replaces the table. -/
def mkLogger (name : Option String) (level : JsValue)
    (optStreams : Option (List (StreamId × List JNum))) : Except String LoggerState :=
  let base : LoggerState := { name := name, level := 2, streams := defaultStreams }
  if level = JsValue.vnull ∨ level = JsValue.vundef then
    .ok (applyStreams base optStreams)
  else
    match setLevel base level with
    | (st, none) => .ok (applyStreams st optStreams)
    | (_, some e) => .error e

/-- A calendar reading of the wall clock, as far as the timestamp format
`YYYY-MM-DD HH:mm:ss` inspects it. -/
structure JsDate where
  year : Nat
  month : Nat
  day : Nat
  hour : Nat
  minute : Nat
  second : Nat
deriving DecidableEq

/-- Zero-pads a numeral to two characters. -/
def pad2 (n : Nat) : String :=
  if n < 10 then "0" ++ toString n else toString n

/-- Zero-pads a numeral to four characters. -/
def pad4 (n : Nat) : String :=
  if n < 10 then "000" ++ toString n
  else if n < 100 then "00" ++ toString n
  else if n < 1000 then "0" ++ toString n
  else toString n

/-- Rendering of `moment(date).format('YYYY-MM-DD HH:mm:ss')`. -/
def momentFormat (d : JsDate) : String :=
  pad4 d.year ++ "-" ++ pad2 d.month ++ "-" ++ pad2 d.day ++ " " ++
    pad2 d.hour ++ ":" ++ pad2 d.minute ++ ":" ++ pad2 d.second

/-- Scans a format string for `%s` directives, consuming arguments
positionally; a directive with no argument left is kept literally.  Returns
the substituted text and the unconsumed arguments. -/
def substFormat : List Char → List String → String × List String
  | [], args => ("", args)
  | '%' :: 's' :: cs, a :: args =>
      let r := substFormat cs args
      (a ++ r.1, r.2)
  | c :: cs, args =>
      let r := substFormat cs args
      (String.mk [c] ++ r.1, r.2)

/-- Modelled from the spec: the printf-style variadic formatter standing in
for the platform formatting utility the source delegates message assembly to
(the spec leaves the exact directive set open and asks for a minimal
documented subset).  The first part is scanned for `%s` directives which
consume subsequent parts positionally; leftover parts are appended
space-separated; no parts give the empty message. -/
def utilFormat : List String → String
  | [] => ""
  | f :: args =>
      let r := substFormat f.toList args
      String.intercalate " " (r.1 :: r.2)

/-- Splits a character list on every newline character. -/
def splitLinesChars : List Char → List (List Char)
  | [] => [[]]
  | '\n' :: cs => [] :: splitLinesChars cs
  | c :: cs =>
      match splitLinesChars cs with
      | [] => [[c]]
      | g :: gs => (c :: g) :: gs

/-- Line normalization of `__write`: strip every carriage return, then split
on newline characters. -/
def messageLines (s : String) : List String :=
  (splitLinesChars (s.toList.filter (fun c => c != '\r'))).map String.mk

/-- The name segment of the prefix: the empty string when `this.name` is
null or undefined, the name itself otherwise. -/
def nameSegment : Option String → String
  | none => ""
  | some n => n

/-- The bracketed line prefix `[timestamp][name][LEVEL]`. -/
def prefixOf (date : JsDate) (name : Option String) (msgLevel : JNum) : String :=
  "[" ++ momentFormat date ++ "]" ++ "[" ++ nameSegment name ++ "]" ++
    "[" ++ reverseLevelStr msgLevel ++ "]"

/-- The part of a written line that follows the prefix: a space, the
separator, a space, the line content, and the terminating newline. -/
def lineTail (sep line : String) : String :=
  " " ++ sep ++ " " ++ line ++ "\n"

/-- One physical output line, `[prefix, sep, line].join(' ') + '\n'`. -/
def decoratedLine (pre sep line : String) : String :=
  pre ++ lineTail sep line

/-- The separator in front of line number `i` of a message: `***` for the
first line, a three-space blank field afterwards. -/
def sepFor (i : Nat) : String :=
  if i = 0 then "***" else "   "

/-- One attempted write: the destination stream and the exact text handed to
its `write`. -/
structure WriteEvent where
  stream : StreamId
  text : String
deriving DecidableEq

/-- The fan-out loop of `__write`: for each line (outer loop, separator
`***` then three spaces) and each routing-table entry (inner loop, table
order) whose level set contains the message level, one write of the
decorated line. -/
def writeLines (streams : List (StreamId × List JNum)) (lvl : JNum) (pre : String) :
    List String → String → List WriteEvent
  | [], _ => []
  | line :: rest, sep =>
      (streams.filter (fun p => hasLevel p.2 lvl)).map
        (fun p => WriteEvent.mk p.1 (decoratedLine pre sep line))
      ++ writeLines streams lvl pre rest "   "

/-- The body of `__write(date, instLevel, messageLevel, ...messages)`:
formats the message, builds the prefix, normalizes lines, and fans out.
`instLevel` is received from the deferred call but unused by the body,
mirroring the source. -/
def writeModel (name : Option String) (streams : List (StreamId × List JNum))
    (date : JsDate) (instLevel : Int) (msgLevel : JNum) (parts : List String) :
    List WriteEvent :=
  writeLines streams msgLevel (prefixOf date name msgLevel)
    (messageLines (utilFormat parts)) "***"

/-- The record captured synchronously by `log` and handed to the deferred
task: clock reading, the instance threshold at call time, the message level,
and the message parts. -/
structure LogRecord where
  date : JsDate
  instLevel : Int
  msgLevel : JNum
  parts : List String
deriving DecidableEq

/-- Model of `Logger.prototype.log(level, ...messages)`: reads the clock,
checks `level > this.level` synchronously, and either returns without
scheduling anything or captures exactly one deferred record for `__write`. -/
def log (st : LoggerState) (now : JsDate) (level : JNum) (parts : List String) :
    Option LogRecord :=
  if jsGt level (.fin st.level 0) then none
  else some { date := now, instLevel := st.level, msgLevel := level, parts := parts }

/-- Execution of the deferred task: `__write` applied to the captured record,
reading `self.name` and `self.__streams` from the instance as it is at flush
time. -/
def flush (st : LoggerState) (r : LogRecord) : List WriteEvent :=
  writeModel st.name st.streams r.date r.instLevel r.msgLevel r.parts

/-- Convenience method `logger.severe(...args)`. -/
def severe (st : LoggerState) (now : JsDate) (parts : List String) : Option LogRecord :=
  log st now (.fin (levelRank "SEVERE") 0) parts

/-- Convenience method `logger.warning(...args)`. -/
def warning (st : LoggerState) (now : JsDate) (parts : List String) : Option LogRecord :=
  log st now (.fin (levelRank "WARNING") 0) parts

/-- Convenience method `logger.info(...args)`. -/
def info (st : LoggerState) (now : JsDate) (parts : List String) : Option LogRecord :=
  log st now (.fin (levelRank "INFO") 0) parts

/-- Convenience method `logger.fine(...args)`. -/
def fine (st : LoggerState) (now : JsDate) (parts : List String) : Option LogRecord :=
  log st now (.fin (levelRank "FINE") 0) parts

/-- Convenience method `logger.finer(...args)`. -/
def finer (st : LoggerState) (now : JsDate) (parts : List String) : Option LogRecord :=
  log st now (.fin (levelRank "FINER") 0) parts

/-- Convenience method `logger.finest(...args)`. -/
def finest (st : LoggerState) (now : JsDate) (parts : List String) : Option LogRecord :=
  log st now (.fin (levelRank "FINEST") 0) parts

/-- Lower-casing of a display name, for the convenience method names. -/
def lowerStr (s : String) : String :=
  String.mk (s.toList.map Char.toLower)

/-- The lines written to one given stream, in write order. -/
def writesTo (s : StreamId) : List WriteEvent → List String
  | [] => []
  | e :: es => if e.stream == s then e.text :: writesTo s es else writesTo s es

/-- The lines a flush produces for one stream under a given first separator:
one decorated line per message line, `sep` first and the blank field for the
rest. -/
def renderLines (pre : String) : String → List String → List String
  | _, [] => []
  | sep, line :: rest => decoratedLine pre sep line :: renderLines pre "   " rest

/-- The per-event text suffixes of the fan-out, keyed by stream: everything
of an attempted write apart from the prefix.  Built without looking at the
instance name. -/
def suffixEvents (streams : List (StreamId × List JNum)) (lvl : JNum) :
    List String → String → List (StreamId × String)
  | [], _ => []
  | line :: rest, sep =>
      (streams.filter (fun p => hasLevel p.2 lvl)).map
        (fun p => (p.1, lineTail sep line))
      ++ suffixEvents streams lvl rest "   "

/-- The fan-out loop with each attempted destination write annotated by the
success flag that destination reports through its own channel; the engine
discards the flag, as the source discards the return value of
`stream.write`. -/
def writeLinesOut (streams : List (StreamId × List JNum)) (lvl : JNum) (pre : String)
    (ok : StreamId → String → Bool) : List String → String → List (WriteEvent × Bool)
  | [], _ => []
  | line :: rest, sep =>
      (streams.filter (fun p => hasLevel p.2 lvl)).map
        (fun p => (WriteEvent.mk p.1 (decoratedLine pre sep line),
                   ok p.1 (decoratedLine pre sep line)))
      ++ writeLinesOut streams lvl pre ok rest "   "

/-- A flush in which every destination write reports an outcome. -/
def flushOut (st : LoggerState) (r : LogRecord) (ok : StreamId → String → Bool) :
    List (WriteEvent × Bool) :=
  writeLinesOut st.streams r.msgLevel (prefixOf r.date st.name r.msgLevel) ok
    (messageLines (utilFormat r.parts)) "***"

theorem writesTo_append (s : StreamId) (a b : List WriteEvent) :
    writesTo s (a ++ b) = writesTo s a ++ writesTo s b := by
  induction a with
  | nil => rfl
  | cons e es ih =>
      by_cases h : e.stream == s <;> simp [writesTo, h, ih]

theorem writesTo_fanout (streams : List (StreamId × List JNum)) (s : StreamId)
    (lvl : JNum) (t : String) :
    writesTo s ((streams.filter (fun p => hasLevel p.2 lvl)).map
        (fun p => WriteEvent.mk p.1 t))
      = ((streams.filter (fun p => p.1 == s)).filter
          (fun p => hasLevel p.2 lvl)).map (fun _ => t) := by
  induction streams with
  | nil => rfl
  | cons hd tl ih =>
      by_cases h1 : hasLevel hd.2 lvl <;> by_cases h2 : hd.1 == s <;>
        simp [List.filter_cons, h1, h2, writesTo, ih]

theorem writesTo_writeLines (streams : List (StreamId × List JNum)) (s : StreamId)
    (acc : List JNum) (lvl : JNum) (pre : String)
    (hf : streams.filter (fun p => p.1 == s) = [(s, acc)]) :
    ∀ (lines : List String) (sep : String),
      writesTo s (writeLines streams lvl pre lines sep) =
        if hasLevel acc lvl then renderLines pre sep lines else [] := by
  intro lines
  induction lines with
  | nil =>
      intro sep
      simp [writeLines, writesTo, renderLines]
  | cons line rest ih =>
      intro sep
      rw [writeLines, writesTo_append, writesTo_fanout, ih "   ", hf]
      by_cases hc : hasLevel acc lvl <;>
        simp [List.filter_cons, hc, renderLines]

theorem renderLines_length (pre : String) :
    ∀ (sep : String) (lines : List String),
      (renderLines pre sep lines).length = lines.length := by
  intro sep lines
  induction lines generalizing sep with
  | nil => rfl
  | cons line rest ih => simp [renderLines, ih]

theorem renderLines_getD_cont (pre : String) :
    ∀ (lines : List String) (i : Nat), i < lines.length →
      (renderLines pre "   " lines).getD i "" =
        decoratedLine pre "   " (lines.getD i "") := by
  intro lines
  induction lines with
  | nil => intro i hi; simp at hi
  | cons line rest ih =>
      intro i hi
      cases i with
      | zero => rfl
      | succ j =>
          simp only [renderLines, List.getD_cons_succ]
          exact ih j (by simpa using hi)

theorem renderLines_getD (pre : String) :
    ∀ (lines : List String) (i : Nat), i < lines.length →
      (renderLines pre "***" lines).getD i "" =
        decoratedLine pre (sepFor i) (lines.getD i "") := by
  intro lines i hi
  cases lines with
  | nil => simp at hi
  | cons line rest =>
      cases i with
      | zero => rfl
      | succ j =>
          simp only [renderLines, List.getD_cons_succ, sepFor]
          have hj : j < rest.length := by simpa using hi
          simpa using renderLines_getD_cont pre rest j hj

theorem writeLines_empty_of_rejected (streams : List (StreamId × List JNum))
    (lvl : JNum) (pre : String)
    (h : ∀ p ∈ streams, hasLevel p.2 lvl = false) :
    ∀ (lines : List String) (sep : String),
      writeLines streams lvl pre lines sep = [] := by
  intro lines
  induction lines with
  | nil => intro sep; rfl
  | cons line rest ih =>
      intro sep
      rw [writeLines, ih "   "]
      have hnil : streams.filter (fun p => hasLevel p.2 lvl) = [] := by
        simp only [List.filter_eq_nil_iff]
        intro p hp
        simp [h p hp]
      simp [hnil]

theorem writeLines_suffix (streams : List (StreamId × List JNum)) (lvl : JNum)
    (pre : String) :
    ∀ (lines : List String) (sep : String),
      writeLines streams lvl pre lines sep =
        (suffixEvents streams lvl lines sep).map
          (fun q => WriteEvent.mk q.1 (pre ++ q.2)) := by
  intro lines
  induction lines with
  | nil => intro sep; rfl
  | cons line rest ih =>
      intro sep
      rw [writeLines, suffixEvents, ih "   "]
      simp [List.map_map, decoratedLine, Function.comp]

theorem writeLinesOut_fst (streams : List (StreamId × List JNum)) (lvl : JNum)
    (pre : String) (ok : StreamId → String → Bool) :
    ∀ (lines : List String) (sep : String),
      (writeLinesOut streams lvl pre ok lines sep).map Prod.fst =
        writeLines streams lvl pre lines sep := by
  intro lines
  induction lines with
  | nil => intro sep; rfl
  | cons line rest ih =>
      intro sep
      rw [writeLinesOut, writeLines, List.map_append, ih "   "]
      simp [List.map_map, Function.comp]

theorem jsGt_fin_int (n : Int) (e : Nat) (t : Int) :
    jsGt (.fin n e) (.fin t 0) = true ↔ (t : ℚ) < jvalue n e := by
  simp only [jsGt, decide_eq_true_eq, pow_zero, mul_one, jvalue]
  rw [lt_div_iff₀ (by positivity)]
  constructor
  · intro h; exact_mod_cast h
  · intro h; exact_mod_cast h

theorem jvalue_int_iff (n : Int) (e : Nat) :
    (∃ z : Int, jvalue n e = (z : ℚ)) ↔ (10 : Int) ^ e ∣ n := by
  constructor
  · rintro ⟨z, hz⟩
    rw [jvalue, div_eq_iff (by positivity)] at hz
    refine ⟨z, ?_⟩
    rw [mul_comm] at hz
    exact_mod_cast hz
  · rintro ⟨c, rfl⟩
    refine ⟨c, ?_⟩
    rw [jvalue]
    push_cast
    rw [mul_comm, mul_div_assoc, div_self (by positivity), mul_one]

/-- Claim C1: the threshold gate of `log` is decided by numeric comparison
with the instance threshold at the moment of the call: a rank numerically
greater than the threshold yields a no-op (no deferred record), and a rank
less than or equal to the threshold yields exactly one captured deferred
record, returned before any write exists. -/
theorem log_threshold_gate (st : LoggerState) (now : JsDate) (parts : List String)
    (n : Int) (e : Nat) :
    (log st now (.fin n e) parts = none ↔ (st.level : ℚ) < jvalue n e) ∧
    (log st now (.fin n e) parts = some ⟨now, st.level, .fin n e, parts⟩ ↔
      jvalue n e ≤ (st.level : ℚ)) := by
  have key := jsGt_fin_int n e st.level
  by_cases h : jsGt (JNum.fin n e) (JNum.fin st.level 0) = true
  · have hlt : (st.level : ℚ) < jvalue n e := key.mp h
    rw [log, if_pos h]
    constructor
    · simp [hlt]
    · constructor
      · intro hc; exact absurd hc (by simp)
      · intro hc; exact absurd hc (not_le.mpr hlt)
  · have hle : jvalue n e ≤ (st.level : ℚ) := not_lt.mp (fun hc => h (key.mpr hc))
    rw [log, if_neg h]
    constructor
    · constructor
      · intro hc; exact absurd hc (by simp)
      · intro hc; exact absurd hc (not_lt.mpr hle)
    · simp [hle]

/-- Claim C2: for an accepted call, a stream whose level set accepts the
message level receives exactly one write per line of the formatted message
(carriage returns stripped, split on newlines), in original order, each of
the byte-exact form prefix, space, marker, space, line, newline, with the
`***` marker on the first line and the three-space blank field on every
later line. -/
theorem log_multiline_exact (st : LoggerState) (r : LogRecord) (s : StreamId)
    (acc : List JNum)
    (hf : st.streams.filter (fun p => p.1 == s) = [(s, acc)])
    (hc : hasLevel acc r.msgLevel = true) :
    (writesTo s (flush st r)).length =
      (messageLines (utilFormat r.parts)).length ∧
    ∀ i, i < (messageLines (utilFormat r.parts)).length →
      (writesTo s (flush st r)).getD i "" =
        decoratedLine (prefixOf r.date st.name r.msgLevel) (sepFor i)
          ((messageLines (utilFormat r.parts)).getD i "") := by
  have h := writesTo_writeLines st.streams s acc r.msgLevel
      (prefixOf r.date st.name r.msgLevel) hf (messageLines (utilFormat r.parts)) "***"
  simp only [hc, eq_self_iff_true, if_true] at h
  have hflush : writesTo s (flush st r) =
      renderLines (prefixOf r.date st.name r.msgLevel) "***"
        (messageLines (utilFormat r.parts)) := by
    rw [flush, writeModel] at *
    exact h
  constructor
  · rw [hflush, renderLines_length]
  · intro i hi
    rw [hflush]
    exact renderLines_getD _ _ i hi

/-- Witness for C2 at the spec's example: the message "a\nb\nc" flushed to
the default stream gives three writes and the first carries the `***`
marker. -/
theorem log_multiline_exact_witness :
    (writesTo stdoutId (flush (LoggerState.mk (some "svc") 3 defaultStreams)
        (LogRecord.mk (JsDate.mk 2020 1 2 3 4 5) 3 (.fin 3 0) ["a\nb\nc"]))).length =
      (messageLines (utilFormat ["a\nb\nc"])).length ∧
    (writesTo stdoutId (flush (LoggerState.mk (some "svc") 3 defaultStreams)
        (LogRecord.mk (JsDate.mk 2020 1 2 3 4 5) 3 (.fin 3 0) ["a\nb\nc"]))).getD 0 "" =
      decoratedLine (prefixOf (JsDate.mk 2020 1 2 3 4 5) (some "svc") (.fin 3 0))
        (sepFor 0) ((messageLines (utilFormat ["a\nb\nc"])).getD 0 "") :=
  have h := log_multiline_exact (LoggerState.mk (some "svc") 3 defaultStreams)
    (LogRecord.mk (JsDate.mk 2020 1 2 3 4 5) 3 (.fin 3 0) ["a\nb\nc"]) stdoutId
    (levelsList.map (fun z => JNum.fin z 0)) (by decide) (by decide)
  ⟨h.1, h.2 0 (by decide)⟩

/-- Claim C3: during the flush of a call, a line is written to a stream
exactly when that stream's accepted-level set, read from the routing table
at flush time, contains the message level; otherwise the stream receives
nothing for that call. -/
theorem flush_routes_by_table (st : LoggerState) (r : LogRecord) (s : StreamId)
    (acc : List JNum)
    (hf : st.streams.filter (fun p => p.1 == s) = [(s, acc)]) :
    writesTo s (flush st r) =
      if hasLevel acc r.msgLevel then
        renderLines (prefixOf r.date st.name r.msgLevel) "***"
          (messageLines (utilFormat r.parts))
      else [] := by
  have h := writesTo_writeLines st.streams s acc r.msgLevel
      (prefixOf r.date st.name r.msgLevel) hf (messageLines (utilFormat r.parts)) "***"
  rw [flush, writeModel]
  exact h

/-- Witness for C3: a stream accepting only INFO receives nothing from a
SEVERE call even though the logger threshold accepts it. -/
theorem flush_routes_by_table_witness :
    writesTo stdoutId (flush (LoggerState.mk none 6 [(stdoutId, [JNum.fin 3 0])])
      (LogRecord.mk (JsDate.mk 2020 1 2 3 4 5) 6 (.fin 1 0) ["x"])) = [] :=
  (flush_routes_by_table (LoggerState.mk none 6 [(stdoutId, [JNum.fin 3 0])])
    (LogRecord.mk (JsDate.mk 2020 1 2 3 4 5) 6 (.fin 1 0) ["x"]) stdoutId
    [JNum.fin 3 0] (by decide)).trans (by decide)

/-- Claim C4: assigning a value to the threshold first coerces it to a
number; unless the result passes the integer test the assignment throws the
InvalidArgument error with the instance left untouched (and a construction
passing such a level fails the same way); otherwise the threshold becomes
the coerced integer. -/
theorem setLevel_integer_guard (st : LoggerState) (v : JsValue) :
    (isIntegerNum (toNumber v) = false →
        setLevel st v = (st, some "Invalid loglevel provided!") ∧
        ∀ name, v ≠ JsValue.vnull → v ≠ JsValue.vundef →
          mkLogger name v none = .error "Invalid loglevel provided!") ∧
    (isIntegerNum (toNumber v) = true →
        setLevel st v = ({ st with level := jnumToInt (toNumber v) }, none)) ∧
    (∀ z : Int, toNumber v = .fin z 0 →
        setLevel st v = ({ st with level := z }, none)) := by
  refine ⟨fun h => ⟨?_, ?_⟩, fun h => ?_, fun z hz => ?_⟩
  · simp [setLevel, h]
  · intro name hv1 hv2
    simp [mkLogger, hv1, hv2, setLevel, h]
  · simp [setLevel, h]
  · have hint : isIntegerNum (toNumber v) = true := by
      rw [hz]; simp [isIntegerNum]
    have hval : jnumToInt (toNumber v) = z := by
      rw [hz]; simp [jnumToInt]
    simp [setLevel, hint, hval]

/-- Witness for C4: the fractional string "2.5" is rejected by the setter
and by the constructor, and the integral string "7" is stored as 7. -/
theorem setLevel_integer_guard_witness :
    setLevel (LoggerState.mk none 2 defaultStreams) (.vstr "2.5") =
      (LoggerState.mk none 2 defaultStreams, some "Invalid loglevel provided!") ∧
    mkLogger (some "n") (.vstr "2.5") none = .error "Invalid loglevel provided!" ∧
    setLevel (LoggerState.mk none 2 defaultStreams) (.vstr "7") =
      ({ LoggerState.mk none 2 defaultStreams with level := 7 }, none) :=
  have h1 := setLevel_integer_guard (LoggerState.mk none 2 defaultStreams) (.vstr "2.5")
  have h2 := setLevel_integer_guard (LoggerState.mk none 2 defaultStreams) (.vstr "7")
  ⟨(h1.1 (by decide)).1, (h1.1 (by decide)).2 (some "n") (by decide) (by decide),
   h2.2.2 7 (by decide)⟩

/-- Claim C5: the attempted writes of a flush are independent of the
outcomes the destinations report: a failing destination write changes
nothing about which writes to the remaining destinations and lines are
attempted, no write is retried, and the nominal fan-out is preserved. -/
theorem flush_outcomes_ignored (st : LoggerState) (r : LogRecord)
    (ok1 ok2 : StreamId → String → Bool) :
    (flushOut st r ok1).map Prod.fst = flush st r ∧
    (flushOut st r ok1).map Prod.fst = (flushOut st r ok2).map Prod.fst := by
  constructor
  · rw [flushOut, flush, writeModel]
    exact writeLinesOut_fst _ _ _ _ _ _
  · rw [flushOut, flushOut, writeLinesOut_fst, writeLinesOut_fst]

/-- Claim C6: the accept/reject decision of `log` reads only the threshold
field at the instant of the call, and mutating the threshold afterwards
changes neither whether nor with what content a captured record is
flushed. -/
theorem log_decision_at_call (st : LoggerState) (now : JsDate) (lvl : JNum)
    (parts : List String) (x : Int) :
    (log { st with level := x } now lvl parts = none ↔
        jsGt lvl (.fin x 0) = true) ∧
    (∀ r, log st now lvl parts = some r →
        flush { st with level := x } r = flush st r) := by
  constructor
  · by_cases h : jsGt lvl (JNum.fin x 0) = true <;> simp [log, h]
  · intro r _
    rfl

/-- Witness for C6: a call accepted at threshold 2 flushes identically after
the threshold is moved to 0, and the rejection test at the new threshold is
the numeric comparison. -/
theorem log_decision_at_call_witness :
    (log { LoggerState.mk (some "a") 2 defaultStreams with level := 0 }
        (JsDate.mk 2020 1 2 3 4 5) (.fin 2 0) ["x"] = none ↔
      jsGt (.fin 2 0) (.fin 0 0) = true) ∧
    flush { LoggerState.mk (some "a") 2 defaultStreams with level := 0 }
        (LogRecord.mk (JsDate.mk 2020 1 2 3 4 5) 2 (.fin 2 0) ["x"]) =
      flush (LoggerState.mk (some "a") 2 defaultStreams)
        (LogRecord.mk (JsDate.mk 2020 1 2 3 4 5) 2 (.fin 2 0) ["x"]) :=
  have h := log_decision_at_call (LoggerState.mk (some "a") 2 defaultStreams)
    (JsDate.mk 2020 1 2 3 4 5) (.fin 2 0) ["x"] 0
  ⟨h.1, h.2 (LogRecord.mk (JsDate.mk 2020 1 2 3 4 5) 2 (.fin 2 0) ["x"]) (by decide)⟩

/-- Claim C7: lower-casing the registry's level names gives exactly the
convenience method names severe, warning, info, fine, finer, finest, and
each method is the generic `log` applied at that level's registered rank. -/
theorem convenience_methods_match_registry :
    (levels.map (fun p => lowerStr p.1) =
        ["severe", "warning", "info", "fine", "finer", "finest"]) ∧
    (∀ (st : LoggerState) (now : JsDate) (parts : List String),
      severe st now parts = log st now (.fin 1 0) parts ∧
      warning st now parts = log st now (.fin 2 0) parts ∧
      info st now parts = log st now (.fin 3 0) parts ∧
      fine st now parts = log st now (.fin 4 0) parts ∧
      finer st now parts = log st now (.fin 5 0) parts ∧
      finest st now parts = log st now (.fin 6 0) parts) :=
  ⟨by decide, fun st now parts => ⟨rfl, rfl, rfl, rfl, rfl, rfl⟩⟩

/-- Claim C8: the setter accepts any value whose number coercion is an
integer, not only numeric inputs — the empty string, null and false become
0, true becomes 1, the string "3" becomes 3 — and the error is raised
exactly when the coercion is NaN, an infinity, or a finite value that is
not an integer. -/
theorem setLevel_accepts_coercible (st : LoggerState) :
    setLevel st (.vstr "") = ({ st with level := 0 }, none) ∧
    setLevel st .vnull = ({ st with level := 0 }, none) ∧
    setLevel st (.vbool false) = ({ st with level := 0 }, none) ∧
    setLevel st (.vbool true) = ({ st with level := 1 }, none) ∧
    setLevel st (.vstr "3") = ({ st with level := 3 }, none) ∧
    (∀ v : JsValue, (setLevel st v).2.isSome = true ↔
      (toNumber v = .nan ∨ toNumber v = .inf ∨ toNumber v = .ninf ∨
       ∃ n e, toNumber v = .fin n e ∧ ∀ z : Int, jvalue n e ≠ (z : ℚ))) := by
  refine ⟨?_, ?_, ?_, ?_, ?_, ?_⟩
  · have hint : isIntegerNum (toNumber (.vstr "")) = true := by decide
    have hval : jnumToInt (toNumber (.vstr "")) = 0 := by decide
    simp [setLevel, hint, hval]
  · have hint : isIntegerNum (toNumber .vnull) = true := by decide
    have hval : jnumToInt (toNumber .vnull) = 0 := by decide
    simp [setLevel, hint, hval]
  · have hint : isIntegerNum (toNumber (.vbool false)) = true := by decide
    have hval : jnumToInt (toNumber (.vbool false)) = 0 := by decide
    simp [setLevel, hint, hval]
  · have hint : isIntegerNum (toNumber (.vbool true)) = true := by decide
    have hval : jnumToInt (toNumber (.vbool true)) = 1 := by decide
    simp [setLevel, hint, hval]
  · have hint : isIntegerNum (toNumber (.vstr "3")) = true := by decide
    have hval : jnumToInt (toNumber (.vstr "3")) = 3 := by decide
    simp [setLevel, hint, hval]
  · intro v
    cases hv : toNumber v with
    | fin n e =>
      rw [setLevel, hv]
      by_cases hd : (10 : Int) ^ e ∣ n
      · have hmod : (n % (10 : Int) ^ e == 0) = true :=
          beq_iff_eq.mpr (Int.emod_eq_zero_of_dvd hd)
        simp only [isIntegerNum, hmod, eq_self_iff_true, if_true, Option.isSome_none]
        constructor
        · intro hfalse
          exact absurd hfalse (by simp)
        · rintro (h | h | h | ⟨n', e', hne, hall⟩)
          · exact absurd h (by simp)
          · exact absurd h (by simp)
          · exact absurd h (by simp)
          · obtain ⟨z, hz⟩ := (jvalue_int_iff n e).mpr hd
            cases hne
            exact absurd hz (hall z)
      · have hmod : (n % (10 : Int) ^ e == 0) = false := by
          simp only [beq_eq_false_iff_ne, ne_eq]
          intro hzero
          exact hd (Int.dvd_of_emod_eq_zero hzero)
        simp only [isIntegerNum, hmod, if_false, Bool.false_eq_true, Option.isSome_some]
        constructor
        · intro _
          refine Or.inr (Or.inr (Or.inr ⟨n, e, rfl, fun z hz => ?_⟩))
          exact hd ((jvalue_int_iff n e).mp ⟨z, hz⟩)
        · intro _
          trivial
    | nan =>
      rw [setLevel, hv]
      simp [isIntegerNum]
    | inf =>
      rw [setLevel, hv]
      simp [isIntegerNum]
    | ninf =>
      rw [setLevel, hv]
      simp [isIntegerNum]

/-- Claim C9: a rank outside the registered set that still passes the
threshold comparison (such as 0, or NaN, which is never numerically greater
than anything) is accepted and scheduled, but the flush under the default
routing table writes nothing, because the default stdout level set holds
exactly the six registered ranks. -/
theorem log_unregistered_rank (st : LoggerState) (now : JsDate)
    (parts : List String) (r : JNum)
    (hs : st.streams = defaultStreams)
    (hreg : hasLevel (levelsList.map (fun z => JNum.fin z 0)) r = false)
    (hgt : jsGt r (.fin st.level 0) = false) :
    log st now r parts = some ⟨now, st.level, r, parts⟩ ∧
    flush st ⟨now, st.level, r, parts⟩ = [] := by
  constructor
  · simp [log, hgt]
  · rw [flush, writeModel, hs]
    apply writeLines_empty_of_rejected
    intro p hp
    have hp' : p = (stdoutId, levelsList.map (fun z => JNum.fin z 0)) := by
      rw [defaultStreams] at hp
      simpa using hp
    rw [hp']
    exact hreg

/-- Witness for C9 at rank 0 and at NaN, on a default logger with the
default threshold. -/
theorem log_unregistered_rank_witness :
    (log (LoggerState.mk none 2 defaultStreams) (JsDate.mk 2020 1 2 3 4 5)
        (.fin 0 0) ["x"] =
      some ⟨JsDate.mk 2020 1 2 3 4 5, 2, .fin 0 0, ["x"]⟩ ∧
     flush (LoggerState.mk none 2 defaultStreams)
        ⟨JsDate.mk 2020 1 2 3 4 5, 2, .fin 0 0, ["x"]⟩ = []) ∧
    (log (LoggerState.mk none 2 defaultStreams) (JsDate.mk 2020 1 2 3 4 5)
        .nan ["x"] =
      some ⟨JsDate.mk 2020 1 2 3 4 5, 2, .nan, ["x"]⟩ ∧
     flush (LoggerState.mk none 2 defaultStreams)
        ⟨JsDate.mk 2020 1 2 3 4 5, 2, .nan, ["x"]⟩ = []) :=
  ⟨log_unregistered_rank (LoggerState.mk none 2 defaultStreams)
      (JsDate.mk 2020 1 2 3 4 5) ["x"] (.fin 0 0) rfl (by decide) (by decide),
   log_unregistered_rank (LoggerState.mk none 2 defaultStreams)
      (JsDate.mk 2020 1 2 3 4 5) ["x"] .nan rfl (by decide) (by decide)⟩

/-- Claim C10: an accepted call captures the clock reading, the threshold,
the level and the message parts at call time, while the instance name is
read only when the deferred task runs: flushing the same record under any
instance state writes lines whose suffixes are fixed by the captured record
and whose prefix uses the flush-time name, with a null or undefined name
rendering as an empty segment. -/
theorem flush_reads_name_late (st : LoggerState) (now : JsDate) (lvl : JNum)
    (parts : List String) (r : LogRecord)
    (h : log st now lvl parts = some r) :
    (r.date = now ∧ r.instLevel = st.level ∧ r.msgLevel = lvl ∧
     r.parts = parts) ∧
    (∀ st2 : LoggerState,
      flush st2 r =
        (suffixEvents st2.streams lvl (messageLines (utilFormat parts)) "***").map
          (fun q => WriteEvent.mk q.1 (prefixOf now st2.name lvl ++ q.2))) ∧
    nameSegment none = "" := by
  have hr : r = ⟨now, st.level, lvl, parts⟩ := by
    by_cases hg : jsGt lvl (JNum.fin st.level 0) = true
    · rw [log, if_pos hg] at h
      exact absurd h (by simp)
    · rw [log, if_neg hg] at h
      exact (Option.some_inj.mp h).symm
  subst hr
  refine ⟨⟨rfl, rfl, rfl, rfl⟩, ?_, rfl⟩
  intro st2
  rw [flush, writeModel]
  exact writeLines_suffix st2.streams lvl (prefixOf now st2.name lvl)
    (messageLines (utilFormat parts)) "***"

/-- Witness for C10: a record captured under the name "old" flushes under
the name "new" with every line prefixed by the flush-time name. -/
theorem flush_reads_name_late_witness :
    ((LogRecord.mk (JsDate.mk 2020 1 2 3 4 5) 2 (.fin 2 0) ["m"]).date =
        JsDate.mk 2020 1 2 3 4 5 ∧
     (LogRecord.mk (JsDate.mk 2020 1 2 3 4 5) 2 (.fin 2 0) ["m"]).instLevel =
        (LoggerState.mk (some "old") 2 defaultStreams).level ∧
     (LogRecord.mk (JsDate.mk 2020 1 2 3 4 5) 2 (.fin 2 0) ["m"]).msgLevel =
        .fin 2 0 ∧
     (LogRecord.mk (JsDate.mk 2020 1 2 3 4 5) 2 (.fin 2 0) ["m"]).parts = ["m"]) ∧
    flush (LoggerState.mk (some "new") 5 defaultStreams)
        (LogRecord.mk (JsDate.mk 2020 1 2 3 4 5) 2 (.fin 2 0) ["m"]) =
      (suffixEvents (LoggerState.mk (some "new") 5 defaultStreams).streams
          (.fin 2 0) (messageLines (utilFormat ["m"])) "***").map
        (fun q => WriteEvent.mk q.1
          (prefixOf (JsDate.mk 2020 1 2 3 4 5)
            (LoggerState.mk (some "new") 5 defaultStreams).name (.fin 2 0) ++ q.2)) :=
  have h := flush_reads_name_late (LoggerState.mk (some "old") 2 defaultStreams)
    (JsDate.mk 2020 1 2 3 4 5) (.fin 2 0) ["m"]
    (LogRecord.mk (JsDate.mk 2020 1 2 3 4 5) 2 (.fin 2 0) ["m"]) (by decide)
  ⟨h.1, h.2.1 (LoggerState.mk (some "new") 5 defaultStreams)⟩

end NodeLogger
